import Mathlib

/-!
Verification of the real-time presence / room-broadcast subsystem of the
Memoryscape backend (src/socket/socketHandler.js, plus the memory-pin HTTP
route in src/routes/memories.js).

The JavaScript module keeps two in-process `Map`s:
  * `activeUsers    : Map<userId, {socketId, user, joinedAt}>`
  * `capsuleRooms   : Map<roomName, Set<userId>>`
and reacts to the socket events `join_capsules`, `join_capsule`,
`leave_capsule`, `typing_start`, `typing_stop`, `disconnect`, plus a
periodic staleness sweep.  We embed the maps as association lists keyed by
`String` (JavaScript `Map` keys are unique), sets of user ids as duplicate
free lists (JavaScript `Set`), and every handler as a pure function from
registry state to registry state paired with the list of socket emissions
it performs.  An emission records the resolved audience (the user ids whose
connections receive the event) and the event payload, mirroring the
synchronous fan-out of the socket library: `socket.to(room)` reaches every
room member except the sender, `io.to(room)` reaches every room member with
no exclusion, `socket.broadcast` reaches every other registered connection.
-/

namespace Memoryscape

/-- JavaScript `Map.get`: first (and in an actual `Map`, only) binding. -/
def mapGet? {β : Type} : List (String × β) → String → Option β
  | [], _ => none
  | (k', v) :: rest, k => if k = k' then some v else mapGet? rest k

/-- JavaScript `Map.set`: replace the binding for `k`, or append it. -/
def mapSet {β : Type} : List (String × β) → String → β → List (String × β)
  | [], k, v => [(k, v)]
  | (k', v') :: rest, k, v =>
      if k = k' then (k, v) :: rest else (k', v') :: mapSet rest k v

/-- JavaScript `Map.delete`. -/
def mapDelete {β : Type} (m : List (String × β)) (k : String) : List (String × β) :=
  m.filter (fun p => decide (p.1 ≠ k))

/-- JavaScript `Map.has`. -/
def mapHas {β : Type} (m : List (String × β)) (k : String) : Bool :=
  (mapGet? m k).isSome

/-- One entry of the `activeUsers` map: the socket id, the user snapshot
captured at connect time (we retain its id), and the `joinedAt` timestamp
in milliseconds. -/
structure ActiveEntry where
  socketId : String
  userId : String
  joinedAt : Int
  deriving DecidableEq, Repr

/-- A capsule contributor subdocument (`{user, role}` in Capsule.js). -/
structure Contributor where
  user : String
  role : String
  deriving DecidableEq, Repr

/-- The slice of a persisted Capsule document the socket layer reads. -/
structure Capsule where
  id : String
  owner : String
  contributors : List Contributor
  deriving DecidableEq, Repr

/-- The persistent store, as the set of capsule documents. -/
abbrev Store : Type := List Capsule

/-- The store lookup `Capsule.findById`. -/
def findCapsule (db : Store) (cid : String) : Option Capsule :=
  db.find? (fun c => c.id == cid)

/-- The access check of the `join_capsule` handler:
`capsule.owner.toString() === socket.userId ||
 capsule.contributors.some((c) => c.user.toString() === socket.userId)`. -/
def hasAccess (cap : Capsule) (uid : String) : Bool :=
  cap.owner == uid || cap.contributors.any (fun ct => ct.user == uid)

/-- The store query of `join_capsules`: capsules whose owner field or
contributor list mentions the user. -/
def userCapsules (db : Store) (uid : String) : List Capsule :=
  db.filter (fun cap => hasAccess cap uid)

/-- The two module-level maps of socketHandler.js. -/
structure RegistryState where
  activeUsers : List (String × ActiveEntry)
  capsuleRooms : List (String × List String)
  deriving DecidableEq, Repr

/-- Registry state at process start: both maps empty. -/
def initState : RegistryState := ⟨[], []⟩

/-- Room naming: the fixed 8-character marker followed by the capsule id. -/
def roomName (cid : String) : String := "capsule_" ++ cid

/-- Members of a room (`capsuleRooms.get(room)` or the empty set). -/
def roomMembers (st : RegistryState) (room : String) : List String :=
  (mapGet? st.capsuleRooms room).getD []

/-- Insertion into a room set: create the room set when absent, then add
the user id — `Set.add` keeps the set duplicate free. -/
def roomAdd (rooms : List (String × List String)) (room uid : String) :
    List (String × List String) :=
  let s := (mapGet? rooms room).getD []
  mapSet rooms room (if uid ∈ s then s else s ++ [uid])

/-- Outbound socket events, restricted to the payload fields the handlers
actually fill in (user-profile snapshots are elided). -/
inductive OutEvent where
  | error (message : String)
  | userOnline (userId : String)
  | userOffline (userId : String)
  | capsuleJoined (capsuleId : String) (activeUsers : List String)
  | userJoinedCapsule (userId : String) (capsuleId : String)
  | userLeftCapsule (userId : String) (capsuleId : String)
  | userTyping (userId : String) (capsuleId : String) (memoryId : String) (isTyping : Bool)
  | liveReaction (userId : String) (capsuleId : String) (memoryId : String) (emoji : String)
  | userViewingMemory (userId : String) (capsuleId : String) (memoryId : String)
  | memoryPinned (memoryId : String) (isPinned : Bool)
  deriving DecidableEq, Repr

/-- One emission: the resolved audience (user ids receiving it) and the
event.  Audiences are resolved at dispatch time against the current maps. -/
structure Emission where
  audience : List String
  event : OutEvent
  deriving DecidableEq, Repr

/-- How many times user `u` receives event `e` across a list of emissions. -/
def deliveryCount (ems : List Emission) (u : String) (e : OutEvent) : Nat :=
  (ems.map (fun em => if em.event = e then em.audience.count u else 0)).sum

/-- The `connection` handler body: `activeUsers.set(userId, {socketId, user,
joinedAt})` then `socket.broadcast.emit("user_online", ...)` — the broadcast
reaches every other registered connection. -/
def register (st : RegistryState) (uid sid : String) (t : Int) :
    RegistryState × List Emission :=
  let act := mapSet st.activeUsers uid ⟨sid, uid, t⟩
  ({ st with activeUsers := act },
    [⟨(act.map Prod.fst).filter (fun v => decide (v ≠ uid)), .userOnline uid⟩])

/-- The `io.use` authentication middleware followed, on success, by the
`connection` handler.  `verify` stands for `jwt.verify` (decoding a token to
a user id or failing), `users` for the persisted user ids
(`User.findById`).  A missing token, an undecodable token, or an unknown
user id makes the middleware call `next(Error)`: the socket is refused, no
handler runs, nothing is registered and nothing is emitted. -/
def handshake (users : List String) (verify : String → Option String)
    (st : RegistryState) (token : Option String) (sid : String) (t : Int) :
    RegistryState × List Emission :=
  match token with
  | none => (st, [])
  | some tk =>
    match verify tk with
    | none => (st, [])
    | some uid => if users.contains uid then register st uid sid t else (st, [])

/-- The `join_capsule` handler: look the capsule up, reject with an `error`
event to the requester when absent or when the requester is neither owner
nor contributor; otherwise add the requester to the room set, answer
`capsule_joined` with the active users of the room, and notify the other
members with `user_joined_capsule`. -/
def joinCapsule (db : Store) (st : RegistryState) (uid cid : String) :
    RegistryState × List Emission :=
  match findCapsule db cid with
  | none => (st, [⟨[uid], .error "Capsule not found"⟩])
  | some cap =>
    if hasAccess cap uid then
      let room := roomName cid
      let st' : RegistryState := { st with capsuleRooms := roomAdd st.capsuleRooms room uid }
      let members := roomMembers st' room
      (st',
        [⟨[uid], .capsuleJoined cid (members.filter (fun v => mapHas st.activeUsers v))⟩,
         ⟨members.filter (fun v => decide (v ≠ uid)), .userJoinedCapsule uid cid⟩])
    else
      (st, [⟨[uid], .error "Access denied"⟩])

/-- The `forEach` body of the `join_capsules` handler, over the list of
capsules returned by the store query: join each room and notify its other
members with `user_joined_capsule`. -/
def joinRoomsList (st : RegistryState) (uid : String) :
    List Capsule → RegistryState × List Emission
  | [] => (st, [])
  | cap :: rest =>
    let room := roomName cap.id
    let st' : RegistryState := { st with capsuleRooms := roomAdd st.capsuleRooms room uid }
    let em : Emission :=
      ⟨(roomMembers st' room).filter (fun v => decide (v ≠ uid)), .userJoinedCapsule uid cap.id⟩
    let res := joinRoomsList st' uid rest
    (res.1, em :: res.2)

/-- The `join_capsules` (bulk) handler: query every capsule whose owner or
contributor list mentions the user, then join each one in turn.  The joined
count is only written to the server log; nothing is sent back to the
requesting client. -/
def joinCapsules (db : Store) (st : RegistryState) (uid : String) :
    RegistryState × List Emission :=
  joinRoomsList st uid (userCapsules db uid)

/-- The `leave_capsule` handler: `socket.leave(room)`, delete the user from
the room set (dropping the room when it becomes empty), then emit
`user_left_capsule` to the room — `socket.to` excludes the sender, and the
emission happens unconditionally, whether or not the user was a member. -/
def leaveCapsule (st : RegistryState) (uid cid : String) :
    RegistryState × List Emission :=
  let room := roomName cid
  let rooms' :=
    match mapGet? st.capsuleRooms room with
    | none => st.capsuleRooms
    | some ms =>
      let ms' := ms.filter (fun v => decide (v ≠ uid))
      if ms' = [] then mapDelete st.capsuleRooms room else mapSet st.capsuleRooms room ms'
  let st' : RegistryState := { st with capsuleRooms := rooms' }
  (st', [⟨(roomMembers st' room).filter (fun v => decide (v ≠ uid)), .userLeftCapsule uid cid⟩])

/-- The `typing_start` handler: `socket.to(room).emit("user_typing",
{..., isTyping: true})` — room members except the sender. -/
def typingStart (st : RegistryState) (uid cid mid : String) : List Emission :=
  [⟨(roomMembers st (roomName cid)).filter (fun v => decide (v ≠ uid)),
    .userTyping uid cid mid true⟩]

/-- The `typing_stop` handler: as `typing_start` with `isTyping: false`. -/
def typingStop (st : RegistryState) (uid cid mid : String) : List Emission :=
  [⟨(roomMembers st (roomName cid)).filter (fun v => decide (v ≠ uid)),
    .userTyping uid cid mid false⟩]

/-- The `capsuleRooms.forEach` body of the `disconnect` handler: remove the
user from every room containing them, emitting `user_left_capsule` to the
remaining members and dropping rooms that become empty.  The capsule id is
recovered from the room name (`roomName.replace("capsule_", "")`, i.e.
dropping the 8-character room-name marker). -/
def disconnectRooms (uid : String) :
    List (String × List String) → List (String × List String) × List Emission
  | [] => ([], [])
  | (room, ms) :: rest =>
    let res := disconnectRooms uid rest
    if uid ∈ ms then
      let ms' := ms.filter (fun v => decide (v ≠ uid))
      let em : Emission := ⟨ms', .userLeftCapsule uid (room.drop 8)⟩
      if ms' = [] then (res.1, em :: res.2)
      else ((room, ms') :: res.1, em :: res.2)
    else ((room, ms) :: res.1, res.2)

/-- The `disconnect` handler: `activeUsers.delete(userId)`, sweep the user
out of every room (broadcasting `user_left_capsule` per affected room), then
`socket.broadcast.emit("user_offline", ...)` to the remaining registered
connections. -/
def disconnect (st : RegistryState) (uid : String) :
    RegistryState × List Emission :=
  let act := mapDelete st.activeUsers uid
  let res := disconnectRooms uid st.capsuleRooms
  (⟨act, res.1⟩,
    res.2 ++ [⟨(act.map Prod.fst).filter (fun v => decide (v ≠ uid)), .userOffline uid⟩])

/-- The 5-minute `setInterval` sweep: delete every `activeUsers` entry whose
`now - joinedAt` exceeds one hour (3600000 ms).  It touches nothing else. -/
def cleanup (st : RegistryState) (now : Int) : RegistryState :=
  { st with
    activeUsers := st.activeUsers.filter (fun p => decide (¬ now - p.2.joinedAt > 3600000)) }

/-- Query `getActiveUsers`: the values of the `activeUsers` map. -/
def getActiveUsers (st : RegistryState) : List ActiveEntry :=
  st.activeUsers.map Prod.snd

/-- Query `getActiveUsersInCapsule`: room members that still have an
`activeUsers` entry (the map-then-filter-Boolean chain). -/
def getActiveUsersInCapsule (st : RegistryState) (cid : String) : List String :=
  (roomMembers st (roomName cid)).filter (fun v => mapHas st.activeUsers v)

/-- Query `isUserOnline`: `activeUsers.has(userId)`. -/
def isUserOnline (st : RegistryState) (uid : String) : Bool :=
  mapHas st.activeUsers uid

/-- The slice of a MemoryItem document the pin route reads and writes. -/
structure MemoryRec where
  id : String
  capsule : String
  isPinned : Bool
  deriving DecidableEq, Repr

/-- The `POST /api/memories/:id/pin` route handler of src/routes/memories.js:
404 when the memory is missing, 403 unless the caller is the capsule owner
or an admin contributor; otherwise toggle `isPinned` and emit
`memory_pinned` via `req.io.to(room)` — the server-level room emit, which
delivers to every member of the room with no exclusion (the socket of the acting user included, if joined).  HTTP responses are not socket emissions,
so the failure branches emit nothing. -/
def pinMemory (memories : List MemoryRec) (db : Store) (st : RegistryState)
    (actor mid : String) : List MemoryRec × List Emission :=
  match memories.find? (fun m => m.id == mid) with
  | none => (memories, [])
  | some m =>
    match findCapsule db m.capsule with
    | none => (memories, [])
    | some cap =>
      let isOwner := cap.owner == actor
      let isAdmin := cap.contributors.any (fun c => c.user == actor && c.role == "admin")
      if isOwner || isAdmin then
        let newPinned := !m.isPinned
        (memories.map (fun x => if x.id == mid then { x with isPinned := newPinned } else x),
          [⟨roomMembers st (roomName m.capsule), .memoryPinned m.id newPinned⟩])
      else (memories, [])

/-- Registry operations, for reasoning about arbitrary execution traces. -/
inductive Op where
  | connect (uid sid : String) (t : Int)
  | joinAll (uid : String)
  | joinOne (uid cid : String)
  | leave (uid cid : String)
  | disc (uid : String)
  | sweep (now : Int)
  deriving DecidableEq, Repr

/-- Apply one operation to the registry state. -/
def applyOp (db : Store) (st : RegistryState) : Op → RegistryState × List Emission
  | .connect uid sid t => register st uid sid t
  | .joinAll uid => joinCapsules db st uid
  | .joinOne uid cid => joinCapsule db st uid cid
  | .leave uid cid => leaveCapsule st uid cid
  | .disc uid => disconnect st uid
  | .sweep now => (cleanup st now, [])

/-- Run a trace of operations, keeping only the state. -/
def runOps (db : Store) : List Op → RegistryState → RegistryState
  | [], st => st
  | op :: rest, st => runOps db rest (applyOp db st op).1

/-- Invariant: no room with an empty member set is queryable. -/
def NoEmptyRooms (st : RegistryState) : Prop :=
  ∀ p ∈ st.capsuleRooms, p.2 ≠ []

/-- Recogniser for the registry operations that C6 quantifies over. -/
def isPresenceOp : Op → Bool
  | .connect _ _ _ => true
  | .disc _ => true
  | _ => false

/-- Specification-side presence: the most recent `connect`/`disc` mentioning
`u` in the trace (`some true` = connect, `some false` = disconnect,
`none` = never mentioned). -/
def presenceSpec (u : String) : List Op → Option Bool
  | [] => none
  | op :: rest =>
    match presenceSpec u rest with
    | some b => some b
    | none =>
      match op with
      | .connect v _ _ => if v = u then some true else none
      | .disc v => if v = u then some false else none
      | _ => none

/-- A small persisted store used by concrete witnesses: one capsule,
owned by alice, with bob as a contributor. -/
def demoDb : Store := [⟨"C101", "alice", [⟨"bob", "contributor"⟩]⟩]

/-- The capsule document of `demoDb`. -/
def demoCapsule : Capsule := ⟨"C101", "alice", [⟨"bob", "contributor"⟩]⟩

/-- A registry state for concrete witnesses: alice and bob connected and
both joined to the room of capsule C101. -/
def demoState : RegistryState :=
  ⟨[("alice", ⟨"sA", "alice", 0⟩), ("bob", ⟨"sB", "bob", 0⟩)],
   [("capsule_C101", ["alice", "bob"])]⟩

/-- A memory store for concrete witnesses: one unpinned memory in C101. -/
def demoMemories : List MemoryRec := [⟨"m1", "C101", false⟩]

/-- A registry state in which bob is connected and already in the C101 room
while alice has not joined yet. -/
def preJoinState : RegistryState :=
  ⟨[("bob", ⟨"sB", "bob", 0⟩)], [("capsule_C101", ["bob"])]⟩

section MapLemmas

variable {β : Type}

theorem mapGet?_mapSet_self (m : List (String × β)) (k : String) (v : β) :
    mapGet? (mapSet m k v) k = some v := by
  induction m with
  | nil => simp [mapSet, mapGet?]
  | cons p rest ih =>
    by_cases h : k = p.1
    · simp [mapSet, mapGet?, h]
    · simpa [mapSet, mapGet?, h] using ih

theorem mapGet?_mapSet_ne (m : List (String × β)) (k : String) (v : β)
    (k' : String) (h : k' ≠ k) : mapGet? (mapSet m k v) k' = mapGet? m k' := by
  induction m with
  | nil => simp [mapSet, mapGet?, h]
  | cons p rest ih =>
    by_cases hk : k = p.1
    · subst hk
      simp [mapSet, mapGet?, h]
    · by_cases hk' : k' = p.1
      · simp [mapSet, mapGet?, hk, hk']
      · simpa [mapSet, mapGet?, hk, hk'] using ih

theorem mapSet_mapSet (m : List (String × β)) (k : String) (v w : β) :
    mapSet (mapSet m k v) k w = mapSet m k w := by
  induction m with
  | nil => simp [mapSet]
  | cons p rest ih =>
    by_cases h : k = p.1
    · simp [mapSet, h]
    · simpa [mapSet, h] using ih

theorem mem_mapSet (m : List (String × β)) (k : String) (v : β)
    (p : String × β) (hp : p ∈ mapSet m k v) : p ∈ m ∨ p = (k, v) := by
  induction m with
  | nil => simpa [mapSet] using hp
  | cons q rest ih =>
    by_cases h : k = q.1
    · rcases (by simpa [mapSet, h] using hp : p = (k, v) ∨ p ∈ rest) with h1 | h1
      · exact Or.inr h1
      · exact Or.inl (List.mem_cons_of_mem _ h1)
    · rcases (by simpa [mapSet, h] using hp : p = q ∨ p ∈ mapSet rest k v) with h1 | h1
      · exact Or.inl (by simp [h1])
      · rcases ih h1 with h2 | h2
        · exact Or.inl (List.mem_cons_of_mem _ h2)
        · exact Or.inr h2

theorem mapGet?_mapDelete_self (m : List (String × β)) (k : String) :
    mapGet? (mapDelete m k) k = none := by
  induction m with
  | nil => simp [mapDelete, mapGet?]
  | cons p rest ih =>
    by_cases h : p.1 = k
    · simpa [mapDelete, List.filter, h] using ih
    · have hne : ¬ k = p.1 := fun hk => h hk.symm
      simpa [mapDelete, List.filter, h, mapGet?, hne] using ih

theorem mapGet?_mapDelete_ne (m : List (String × β)) (k k' : String)
    (h : k' ≠ k) : mapGet? (mapDelete m k) k' = mapGet? m k' := by
  induction m with
  | nil => simp [mapDelete, mapGet?]
  | cons p rest ih =>
    by_cases hp : p.1 = k
    · simpa [mapDelete, List.filter, hp, mapGet?, h] using ih
    · by_cases hk' : k' = p.1
      · simp [mapDelete, List.filter, hp, mapGet?, hk']
      · simpa [mapDelete, List.filter, hp, mapGet?, hk'] using ih

theorem mapGet?_mem (m : List (String × β)) (k : String) (v : β)
    (h : mapGet? m k = some v) : (k, v) ∈ m := by
  induction m with
  | nil => simp [mapGet?] at h
  | cons p rest ih =>
    by_cases hk : k = p.1
    · have hv : p.2 = v := by simpa [mapGet?, hk] using h
      have hkv : (k, v) = p := by rw [hk, ← hv]
      rw [hkv]
      exact List.mem_cons_self _ _
    · exact List.mem_cons_of_mem _ (ih (by simpa [mapGet?, hk] using h))

theorem mapHas_iff_mem (m : List (String × β)) (k : String) :
    mapHas m k = true ↔ ∃ v, (k, v) ∈ m := by
  induction m with
  | nil => simp [mapHas, mapGet?]
  | cons p rest ih =>
    by_cases hk : k = p.1
    · subst hk
      simp [mapHas, mapGet?]
      exact ⟨p.2, Or.inl rfl⟩
    · simp only [mapHas, mapGet?, if_neg hk] at *
      constructor
      · intro h
        rcases ih.1 h with ⟨v, hv⟩
        exact ⟨v, List.mem_cons_of_mem _ hv⟩
      · rintro ⟨v, hv⟩
        rcases List.mem_cons.1 hv with h1 | h1
        · exact absurd (congrArg Prod.fst h1) hk
        · exact ih.2 ⟨v, h1⟩

theorem key_nodup_unique (m : List (String × β)) (h : (m.map Prod.fst).Nodup)
    {k : String} {a b : β} (ha : (k, a) ∈ m) (hb : (k, b) ∈ m) : a = b := by
  induction m with
  | nil => simp at ha
  | cons p rest ih =>
    have hnd : p.1 ∉ rest.map Prod.fst ∧ (rest.map Prod.fst).Nodup := by
      simpa using h
    rcases List.mem_cons.1 ha with h1 | h1 <;> rcases List.mem_cons.1 hb with h2 | h2
    · exact congrArg Prod.snd (h1.trans h2.symm)
    · rw [← h1] at hnd
      exact absurd (List.mem_map_of_mem Prod.fst h2) hnd.1
    · rw [← h2] at hnd
      exact absurd (List.mem_map_of_mem Prod.fst h1) hnd.1
    · exact ih hnd.2 h1 h2

end MapLemmas

section RoomLemmas

theorem mem_roomAdd_self (rooms : List (String × List String)) (room uid : String) :
    uid ∈ (mapGet? (roomAdd rooms room uid) room).getD [] := by
  unfold roomAdd
  rw [mapGet?_mapSet_self]
  by_cases h : uid ∈ (mapGet? rooms room).getD []
  · simp [h]
  · simp [h]

theorem roomAdd_mono (rooms : List (String × List String)) (room uid room' v : String)
    (h : v ∈ (mapGet? rooms room').getD []) :
    v ∈ (mapGet? (roomAdd rooms room uid) room').getD [] := by
  unfold roomAdd
  by_cases hr : room' = room
  · subst hr
    rw [mapGet?_mapSet_self]
    by_cases hu : uid ∈ (mapGet? rooms room').getD []
    · simpa [hu] using h
    · simp only [if_neg hu, Option.getD_some]
      exact List.mem_append_left _ h
  · rwa [mapGet?_mapSet_ne _ _ _ _ hr]

theorem roomAdd_idem (rooms : List (String × List String)) (room uid : String) :
    roomAdd (roomAdd rooms room uid) room uid = roomAdd rooms room uid := by
  simp only [roomAdd, mapGet?_mapSet_self, Option.getD_some]
  by_cases h : uid ∈ (mapGet? rooms room).getD []
  · simp [h, mapSet_mapSet]
  · simp [h, mapSet_mapSet]

theorem roomAdd_ne_nil (rooms : List (String × List String)) (room uid : String)
    (h : ∀ p ∈ rooms, p.2 ≠ []) : ∀ p ∈ roomAdd rooms room uid, p.2 ≠ [] := by
  intro p hp
  rcases mem_mapSet _ _ _ _ hp with h1 | h1
  · exact h p h1
  · subst h1
    by_cases hu : uid ∈ (mapGet? rooms room).getD []
    · simp only [if_pos hu]
      exact fun hnil => by simp [hnil] at hu
    · simp [if_neg hu]

theorem disconnectRooms_not_mem (uid : String) (rooms : List (String × List String)) :
    ∀ p ∈ (disconnectRooms uid rooms).1, uid ∉ p.2 := by
  induction rooms with
  | nil => simp [disconnectRooms]
  | cons q rest ih =>
    intro p hp
    simp only [disconnectRooms] at hp
    by_cases hm : uid ∈ q.2
    · rw [if_pos hm] at hp
      by_cases hnil : q.2.filter (fun v => decide (v ≠ uid)) = []
      · rw [if_pos hnil] at hp
        exact ih p hp
      · rw [if_neg hnil] at hp
        rcases List.mem_cons.1 hp with h1 | h1
        · subst h1
          simp
        · exact ih p h1
    · rw [if_neg hm] at hp
      rcases List.mem_cons.1 hp with h1 | h1
      · subst h1
        exact hm
      · exact ih p h1

theorem disconnectRooms_ne_nil (uid : String) (rooms : List (String × List String))
    (h : ∀ q ∈ rooms, q.2 ≠ []) : ∀ p ∈ (disconnectRooms uid rooms).1, p.2 ≠ [] := by
  induction rooms with
  | nil => simp [disconnectRooms]
  | cons q rest ih =>
    have hrest := fun q hq => h q (List.mem_cons_of_mem _ hq)
    intro p hp
    simp only [disconnectRooms] at hp
    by_cases hm : uid ∈ q.2
    · rw [if_pos hm] at hp
      by_cases hnil : q.2.filter (fun v => decide (v ≠ uid)) = []
      · rw [if_pos hnil] at hp
        exact ih hrest p hp
      · rw [if_neg hnil] at hp
        rcases List.mem_cons.1 hp with h1 | h1
        · subst h1
          exact hnil
        · exact ih hrest p h1
    · rw [if_neg hm] at hp
      rcases List.mem_cons.1 hp with h1 | h1
      · subst h1
        exact h q (List.mem_cons_self _ _)
      · exact ih hrest p h1

theorem joinRoomsList_events (st : RegistryState) (uid : String) (caps : List Capsule) :
    (joinRoomsList st uid caps).2.map Emission.event
      = caps.map (fun cap => OutEvent.userJoinedCapsule uid cap.id) := by
  induction caps generalizing st with
  | nil => simp [joinRoomsList]
  | cons cap rest ih => simp [joinRoomsList, ih]

theorem joinRoomsList_mono (uid : String) (caps : List Capsule) :
    ∀ (st : RegistryState) (room v : String), v ∈ roomMembers st room →
      v ∈ roomMembers (joinRoomsList st uid caps).1 room := by
  induction caps with
  | nil => intro st room v h; simpa [joinRoomsList] using h
  | cons cap rest ih =>
    intro st room v h
    exact ih _ room v (roomAdd_mono _ _ _ _ _ h)

theorem joinRoomsList_mem (uid : String) (caps : List Capsule) :
    ∀ (st : RegistryState) (cap : Capsule), cap ∈ caps →
      uid ∈ roomMembers (joinRoomsList st uid caps).1 (roomName cap.id) := by
  induction caps with
  | nil => simp
  | cons c rest ih =>
    intro st cap hc
    rcases List.mem_cons.1 hc with h1 | h1
    · subst h1
      exact joinRoomsList_mono uid rest _ _ _ (mem_roomAdd_self _ _ _)
    · exact ih _ cap h1

theorem joinRoomsList_ne_nil (uid : String) (caps : List Capsule) :
    ∀ (st : RegistryState), (∀ p ∈ st.capsuleRooms, p.2 ≠ []) →
      ∀ p ∈ (joinRoomsList st uid caps).1.capsuleRooms, p.2 ≠ [] := by
  induction caps with
  | nil => intro st h; simpa [joinRoomsList] using h
  | cons cap rest ih =>
    intro st h
    exact ih _ (roomAdd_ne_nil _ _ _ h)

theorem count_filter_ne (l : List String) (hnd : l.Nodup) (v u : String) :
    (l.filter (fun x => !decide (x = u))).count v
      = if v ∈ l ∧ ¬ v = u then 1 else 0 := by
  by_cases hvu : v = u
  · subst hvu
    rw [if_neg (by simp)]
    exact List.count_eq_zero.2 (by simp)
  · rw [List.count_filter (by simp [hvu])]
    by_cases hv : v ∈ l
    · rw [if_pos ⟨hv, hvu⟩]
      exact List.count_eq_one_of_mem hnd hv
    · rw [if_neg (fun hc => hv hc.1)]
      exact List.count_eq_zero.2 hv

end RoomLemmas

section PresenceLemmas

theorem isUserOnline_register (st : RegistryState) (uid sid : String) (t : Int) (u : String) :
    isUserOnline (register st uid sid t).1 u = if u = uid then true else isUserOnline st u := by
  by_cases h : u = uid
  · simp [register, isUserOnline, mapHas, h, mapGet?_mapSet_self]
  · simp [register, isUserOnline, mapHas, h, mapGet?_mapSet_ne _ _ _ _ h]

theorem isUserOnline_disconnect (st : RegistryState) (uid u : String) :
    isUserOnline (disconnect st uid).1 u = if u = uid then false else isUserOnline st u := by
  by_cases h : u = uid
  · simp [disconnect, isUserOnline, mapHas, h, mapGet?_mapDelete_self]
  · simp [disconnect, isUserOnline, mapHas, h, mapGet?_mapDelete_ne _ _ _ h]

theorem runOps_presence (db : Store) (u : String) :
    ∀ (ops : List Op) (st : RegistryState), (∀ op ∈ ops, isPresenceOp op = true) →
      isUserOnline (runOps db ops st) u = (presenceSpec u ops).getD (isUserOnline st u) := by
  intro ops
  induction ops with
  | nil =>
    intro st _
    simp [runOps, presenceSpec]
  | cons op rest ih =>
    intro st h
    have hop := h op (List.mem_cons_self _ _)
    have hrest := fun o ho => h o (List.mem_cons_of_mem _ ho)
    rw [runOps, ih _ hrest]
    cases hps : presenceSpec u rest with
    | some b => simp [presenceSpec, hps]
    | none =>
      simp only [presenceSpec, hps]
      cases op with
      | connect v sid t =>
        simp only [applyOp]
        rw [isUserOnline_register]
        by_cases hv : v = u
        · subst hv
          simp
        · have hv' : ¬ u = v := fun he => hv he.symm
          simp [hv, hv']
      | disc v =>
        simp only [applyOp]
        rw [isUserOnline_disconnect]
        by_cases hv : v = u
        · subst hv
          simp
        · have hv' : ¬ u = v := fun he => hv he.symm
          simp [hv, hv']
      | joinAll v => simp [isPresenceOp] at hop
      | joinOne v c => simp [isPresenceOp] at hop
      | leave v c => simp [isPresenceOp] at hop
      | sweep now => simp [isPresenceOp] at hop

end PresenceLemmas

section InvariantLemmas

theorem noEmpty_applyOp (db : Store) (st : RegistryState) (op : Op)
    (h : NoEmptyRooms st) : NoEmptyRooms (applyOp db st op).1 := by
  cases op with
  | connect uid sid t =>
    intro p hp
    exact h p (by simpa [applyOp, register] using hp)
  | joinAll uid =>
    exact joinRoomsList_ne_nil uid _ st h
  | joinOne uid cid =>
    intro p hp
    cases hf : findCapsule db cid with
    | none =>
      simp only [applyOp, joinCapsule, hf] at hp
      exact h p hp
    | some cap =>
      by_cases ha : hasAccess cap uid
      · simp only [applyOp, joinCapsule, hf, if_pos ha] at hp
        exact roomAdd_ne_nil _ _ _ h p hp
      · simp only [applyOp, joinCapsule, hf, if_neg ha] at hp
        exact h p hp
  | leave uid cid =>
    intro p hp
    cases hg : mapGet? st.capsuleRooms (roomName cid) with
    | none =>
      simp only [applyOp, leaveCapsule, hg] at hp
      exact h p hp
    | some ms =>
      by_cases hnil : ms.filter (fun v => decide (v ≠ uid)) = []
      · simp only [applyOp, leaveCapsule, hg, if_pos hnil, mapDelete] at hp
        exact h p (List.mem_of_mem_filter hp)
      · simp only [applyOp, leaveCapsule, hg, if_neg hnil] at hp
        rcases mem_mapSet _ _ _ _ hp with h1 | h1
        · exact h p h1
        · rw [h1]
          exact hnil
  | disc uid =>
    intro p hp
    exact disconnectRooms_ne_nil uid _ h p (by simpa [applyOp, disconnect] using hp)
  | sweep now =>
    intro p hp
    exact h p (by simpa [applyOp, cleanup] using hp)

theorem noEmpty_runOps (db : Store) (ops : List Op) :
    ∀ st, NoEmptyRooms st → NoEmptyRooms (runOps db ops st) := by
  induction ops with
  | nil => intro st h; exact h
  | cons op rest ih =>
    intro st h
    exact ih _ (noEmpty_applyOp db st op h)

end InvariantLemmas

/-- C1: the `join_capsule` operation fails with the not-found error when the
capsule id does not resolve in the store, fails with the access-denied error
when the requester is neither the owner nor a listed contributor, leaves the
registry state (hence the membership of every room) unchanged in both failure
cases with only an error event to the requester, and on success adds the
requester to the member set of room `c`. -/
theorem c1_join_capsule_auth (db : Store) (st : RegistryState) (u c : String) :
    (findCapsule db c = none →
      joinCapsule db st u c = (st, [⟨[u], .error "Capsule not found"⟩]))
    ∧ (∀ cap, findCapsule db c = some cap → hasAccess cap u = false →
      joinCapsule db st u c = (st, [⟨[u], .error "Access denied"⟩]))
    ∧ (∀ cap, findCapsule db c = some cap → hasAccess cap u = true →
      u ∈ roomMembers (joinCapsule db st u c).1 (roomName c)) := by
  refine ⟨fun hf => ?_, fun cap hf ha => ?_, fun cap hf ha => ?_⟩
  · simp [joinCapsule, hf]
  · simp [joinCapsule, hf, ha]
  · simp only [joinCapsule, hf, if_pos ha, roomMembers]
    exact mem_roomAdd_self _ _ _

/-- Witness for C1: in the demo store, an unknown capsule id is rejected as
not found, a stranger is rejected as access denied (state untouched in both
cases), and the join by the owner lands in the room member set. -/
theorem c1_join_capsule_auth_witness :
    joinCapsule demoDb initState "zed" "nope"
      = (initState, [⟨["zed"], .error "Capsule not found"⟩])
    ∧ joinCapsule demoDb initState "zed" "C101"
      = (initState, [⟨["zed"], .error "Access denied"⟩])
    ∧ "alice" ∈ roomMembers (joinCapsule demoDb initState "alice" "C101").1 (roomName "C101") :=
  ⟨(c1_join_capsule_auth demoDb initState "zed" "nope").1 (by decide),
   (c1_join_capsule_auth demoDb initState "zed" "C101").2.1 demoCapsule (by decide) (by decide),
   (c1_join_capsule_auth demoDb initState "alice" "C101").2.2 demoCapsule (by decide) (by decide)⟩

/-- C8: for an authorized user, running `join_capsule` twice in a row
produces the same registry state (hence the same room-`c` membership set) as
running it once — room membership has set semantics, so the second `add` of
the same user is a no-op and no duplicate entry appears. -/
theorem c8_join_idempotent (db : Store) (st : RegistryState) (u c : String)
    (cap : Capsule) (hc : findCapsule db c = some cap) (ha : hasAccess cap u = true) :
    (joinCapsule db (joinCapsule db st u c).1 u c).1 = (joinCapsule db st u c).1 := by
  simp [joinCapsule, hc, ha, roomAdd_idem]

/-- Witness for C8: alice joining C101 twice from the empty registry leaves
the same state as joining once. -/
theorem c8_join_idempotent_witness :
    (joinCapsule demoDb (joinCapsule demoDb initState "alice" "C101").1 "alice" "C101").1
      = (joinCapsule demoDb initState "alice" "C101").1 :=
  c8_join_idempotent demoDb initState "alice" "C101" demoCapsule (by decide) (by decide)

/-- C9: a handshake presenting no token, an undecodable token, or a token
whose user id is unknown is refused by the socket authentication middleware:
the connection is never registered, the registry state is unchanged, the
active-user list is unchanged, and no event (in particular no `user_online`)
is emitted. -/
theorem c9_handshake_rejected (users : List String) (verify : String → Option String)
    (st : RegistryState) (token : Option String) (sid : String) (t : Int)
    (h : token = none ∨ ∃ tk, token = some tk ∧
        (verify tk = none ∨ ∃ uid, verify tk = some uid ∧ users.contains uid = false)) :
    handshake users verify st token sid t = (st, [])
    ∧ getActiveUsers (handshake users verify st token sid t).1 = getActiveUsers st := by
  have h1 : handshake users verify st token sid t = (st, []) := by
    rcases h with h | ⟨tk, htk, h⟩
    · simp [handshake, h]
    · rcases h with h | ⟨uid, huid, hns⟩
      · simp [handshake, htk, h]
      · have hns' : uid ∉ users := by simpa using hns
        simp [handshake, htk, huid, hns']
  exact ⟨h1, by rw [h1]⟩

/-- Witness for C9: a token that fails verification against a populated
registry leaves the state and the active list untouched and emits nothing. -/
theorem c9_handshake_rejected_witness :
    handshake ["alice"] (fun _ => none) demoState (some "badtoken") "sX" 5 = (demoState, [])
    ∧ getActiveUsers (handshake ["alice"] (fun _ => none) demoState (some "badtoken") "sX" 5).1
      = getActiveUsers demoState :=
  c9_handshake_rejected ["alice"] (fun _ => none) demoState (some "badtoken") "sX" 5
    (Or.inr ⟨"badtoken", rfl, Or.inl rfl⟩)

/-- C10: `leave_capsule` for a user who is not a member of room `c` still
emits exactly one `user_left_capsule` broadcast, addressed to the current
members of room `c` — the emission in the handler is unconditional, outside the
membership check. -/
theorem c10_leave_broadcast_unconditional (st : RegistryState) (u c : String)
    (h : u ∉ roomMembers st (roomName c)) :
    (leaveCapsule st u c).2 = [⟨roomMembers st (roomName c), .userLeftCapsule u c⟩] := by
  cases hg : mapGet? st.capsuleRooms (roomName c) with
  | none => simp [leaveCapsule, hg, roomMembers]
  | some ms =>
    have hmem : u ∉ ms := by simpa [roomMembers, hg] using h
    have hfl : ms.filter (fun v => decide (v ≠ u)) = ms :=
      List.filter_eq_self.2 (fun a ha => by
        simp only [decide_eq_true_eq]
        exact fun he => hmem (he ▸ ha))
    have hfl' : ms.filter (fun a => !decide (a = u)) = ms :=
      List.filter_eq_self.2 (fun a ha => by
        have hne : a ≠ u := fun he => hmem (he ▸ ha)
        simp [hne])
    by_cases hnil : ms.filter (fun v => decide (v ≠ u)) = []
    · have hms : ms = [] := hfl ▸ hnil
      subst hms
      simp [leaveCapsule, hg, hnil, roomMembers, mapGet?_mapDelete_self]
    · simp only [leaveCapsule, hg, if_neg hnil]
      simp [roomMembers, mapGet?_mapSet_self, hg, hfl']

/-- Witness for C10: carol, not a member of the C101 room, leaves it;
alice and bob (the current room members) still receive `user_left_capsule`. -/
theorem c10_leave_broadcast_unconditional_witness :
    (leaveCapsule demoState "carol" "C101").2
      = [⟨roomMembers demoState (roomName "C101"), .userLeftCapsule "carol" "C101"⟩] :=
  c10_leave_broadcast_unconditional demoState "carol" "C101" (by decide)

/-- C7: a room broadcast with sender exclusion (`socket.to(room)` as used by
`typing_start`/`typing_stop`) delivers the `user_typing` event exactly once
to every user currently in the room other than the sender, and never to the
sender — even though the sender is a room member. -/
theorem c7_room_broadcast_excludes (st : RegistryState) (u c mid v : String)
    (h : (roomMembers st (roomName c)).Nodup) :
    deliveryCount (typingStart st u c mid) v (.userTyping u c mid true)
      = (if v ∈ roomMembers st (roomName c) ∧ v ≠ u then 1 else 0)
    ∧ deliveryCount (typingStop st u c mid) v (.userTyping u c mid false)
      = (if v ∈ roomMembers st (roomName c) ∧ v ≠ u then 1 else 0) := by
  constructor
  · simp [typingStart, deliveryCount, count_filter_ne _ h v u]
  · simp [typingStop, deliveryCount, count_filter_ne _ h v u]

/-- Witness for C7: alice types in the C101 room; bob (a member) receives the
typing event exactly once, alice (the sender, also a member) receives it
zero times. -/
theorem c7_room_broadcast_excludes_witness :
    deliveryCount (typingStart demoState "alice" "C101" "m1") "bob"
      (.userTyping "alice" "C101" "m1" true) = 1
    ∧ deliveryCount (typingStart demoState "alice" "C101" "m1") "alice"
      (.userTyping "alice" "C101" "m1" true) = 0 := by
  constructor
  · rw [(c7_room_broadcast_excludes demoState "alice" "C101" "m1" "bob" (by decide)).1]
    decide
  · rw [(c7_room_broadcast_excludes demoState "alice" "C101" "m1" "alice" (by decide)).1]
    decide

/-- C2, counterexample: in the concrete scenario of the claim — alice owns
C101, bob is a contributor, both are joined to its room, the memory is
unpinned — alice (the actor) receives the `memory_pinned` event once, not
zero times: the pin route broadcasts with the server-level room emit
(`io.to(room)`), which has no sender exclusion. -/
theorem c2_pin_actor_counterexample :
    deliveryCount (pinMemory demoMemories demoDb demoState "alice" "m1").2 "alice"
      (.memoryPinned "m1" true) = 1 := by
  decide

/-- C2, amended: when the owner `A` pins an unpinned memory of capsule `cid`
while `A` and `B` are both in the capsule room, `B` receives exactly one
`memory_pinned{mid, isPinned: true}` event — and so does `A`: the HTTP pin
handler emits through the server-level room broadcast, which does not
exclude the actor. -/
theorem c2_pin_broadcast_amended (memories : List MemoryRec) (db : Store)
    (st : RegistryState) (A B mid cid : String) (cap : Capsule)
    (hm : memories.find? (fun m => m.id == mid) = some ⟨mid, cid, false⟩)
    (hc : findCapsule db cid = some cap)
    (how : cap.owner = A)
    (hnd : (roomMembers st (roomName cid)).Nodup)
    (hA : A ∈ roomMembers st (roomName cid))
    (hB : B ∈ roomMembers st (roomName cid)) :
    deliveryCount (pinMemory memories db st A mid).2 B (.memoryPinned mid true) = 1
    ∧ deliveryCount (pinMemory memories db st A mid).2 A (.memoryPinned mid true) = 1 := by
  have hown : (cap.owner == A) = true := by simp [how]
  simp only [pinMemory, hm, hc, hown, Bool.true_or, if_pos]
  simp only [deliveryCount, List.map, List.sum_cons, List.sum_nil, if_pos rfl]
  constructor
  · simpa using List.count_eq_one_of_mem hnd hB
  · simpa using List.count_eq_one_of_mem hnd hA

/-- Witness for the amended C2: in the demo scenario both bob and alice
receive the pin event exactly once. -/
theorem c2_pin_broadcast_amended_witness :
    deliveryCount (pinMemory demoMemories demoDb demoState "alice" "m1").2 "bob"
      (.memoryPinned "m1" true) = 1
    ∧ deliveryCount (pinMemory demoMemories demoDb demoState "alice" "m1").2 "alice"
      (.memoryPinned "m1" true) = 1 :=
  c2_pin_broadcast_amended demoMemories demoDb demoState "alice" "bob" "m1" "C101"
    demoCapsule (by decide) (by decide) rfl (by decide) (by decide) (by decide)

/-- C3, counterexample: in a state where alice and bob connected at time 0
and are members of the C101 room, running the sweep at time 3600001 ms evicts
the stale `activeUsers` entries but leaves both room-membership entries in
place — the sweep does not remove room memberships, contradicting the
claim. -/
theorem c3_sweep_counterexample :
    isUserOnline (cleanup demoState 3600001) "alice" = false
    ∧ roomMembers (cleanup demoState 3600001) (roomName "C101") = ["alice", "bob"] := by
  decide

/-- C3, amended: the periodic sweep evicts exactly the `ActiveIdentity`
entries whose `joinedAt` exceeds the 1-hour staleness threshold (keeping the
fresh ones), and removes no room membership entry from any room — the
`capsuleRooms` map is untouched. -/
theorem c3_sweep_amended (st : RegistryState) (now : Int) (u : String) (e : ActiveEntry)
    (hn : (st.activeUsers.map Prod.fst).Nodup)
    (hu : mapGet? st.activeUsers u = some e) :
    (cleanup st now).capsuleRooms = st.capsuleRooms
    ∧ (now - e.joinedAt > 3600000 → isUserOnline (cleanup st now) u = false)
    ∧ (¬ now - e.joinedAt > 3600000 → isUserOnline (cleanup st now) u = true) := by
  refine ⟨rfl, fun hstale => ?_, fun hfresh => ?_⟩
  · cases hmh : isUserOnline (cleanup st now) u with
    | false => rfl
    | true =>
      exfalso
      rcases (mapHas_iff_mem _ _).1 hmh with ⟨v, hv⟩
      have hv' := List.mem_filter.1 (show (u, v) ∈ st.activeUsers.filter
        (fun p => decide (¬ now - p.2.joinedAt > 3600000)) from hv)
      have hve : v = e := key_nodup_unique st.activeUsers hn hv'.1 (mapGet?_mem _ _ _ hu)
      have hnstale : ¬ now - v.joinedAt > 3600000 := of_decide_eq_true hv'.2
      rw [hve] at hnstale
      exact hnstale hstale
  · have hmem : (u, e) ∈ (cleanup st now).activeUsers := by
      simp only [cleanup]
      exact List.mem_filter.2 ⟨mapGet?_mem _ _ _ hu, by simpa using hfresh⟩
    exact (mapHas_iff_mem _ _).2 ⟨e, hmem⟩

/-- Witness for the amended C3: sweeping the demo state at 3600001 ms keeps
every room untouched while the stale entry of alice is evicted. -/
theorem c3_sweep_amended_witness :
    (cleanup demoState 3600001).capsuleRooms = demoState.capsuleRooms
    ∧ isUserOnline (cleanup demoState 3600001) "alice" = false := by
  have h := c3_sweep_amended demoState 3600001 "alice" ⟨"sA", "alice", 0⟩
    (by decide) (by decide)
  exact ⟨h.1, h.2.1 (by decide)⟩

/-- C4, counterexample: with bob already in the C101 room, the bulk
`join_capsules` of alice emits a per-room `user_joined_capsule` broadcast to bob —
bulk mode does broadcast per room, contradicting the claim. -/
theorem c4_bulk_join_counterexample :
    (joinCapsules demoDb preJoinState "alice").2
      = [⟨["bob"], .userJoinedCapsule "alice" "C101"⟩] := by
  decide

/-- C4, amended: `join_capsules` joins the user to every room whose capsule
lists them as owner or contributor, and its emissions are exactly one
`user_joined_capsule` broadcast per such capsule (to the other members
of the room); no count — and no other event — is sent back to the client, the
joined count being only written to the server log. -/
theorem c4_bulk_join_amended (db : Store) (st : RegistryState) (u : String) :
    (∀ cap ∈ db, hasAccess cap u = true →
      u ∈ roomMembers (joinCapsules db st u).1 (roomName cap.id))
    ∧ (joinCapsules db st u).2.map Emission.event
      = (userCapsules db u).map (fun cap => OutEvent.userJoinedCapsule u cap.id) := by
  constructor
  · intro cap hcap ha
    exact joinRoomsList_mem u _ st cap (List.mem_filter.2 ⟨hcap, ha⟩)
  · exact joinRoomsList_events st u _

/-- Witness for the amended C4: the bulk join puts alice in the C101 room. -/
theorem c4_bulk_join_amended_witness :
    "alice" ∈ roomMembers (joinCapsules demoDb preJoinState "alice").1 (roomName "C101") :=
  (c4_bulk_join_amended demoDb preJoinState "alice").1 demoCapsule (by decide) (by decide)

/-- C5: after any sequence of registry operations from the initial state, no
queryable room has an empty member set; leaving a room one was the sole
member of removes the room from the map entirely; and disconnecting removes
the user from every room while deleting the rooms that thereby become empty
(every surviving room is nonempty and free of the user). -/
theorem c5_no_empty_room (db : Store) (ops : List Op) :
    NoEmptyRooms (runOps db ops initState)
    ∧ (∀ u c, roomMembers (runOps db ops initState) (roomName c) = [u] →
        mapGet? (leaveCapsule (runOps db ops initState) u c).1.capsuleRooms (roomName c) = none)
    ∧ (∀ u p, p ∈ (disconnect (runOps db ops initState) u).1.capsuleRooms →
        u ∉ p.2 ∧ p.2 ≠ []) := by
  have hno : NoEmptyRooms (runOps db ops initState) :=
    noEmpty_runOps db ops initState (fun p hp => absurd hp (List.not_mem_nil p))
  refine ⟨hno, fun u c hmem => ?_, fun u p hp => ?_⟩
  · have hg : mapGet? (runOps db ops initState).capsuleRooms (roomName c) = some [u] := by
      cases hg : mapGet? (runOps db ops initState).capsuleRooms (roomName c) with
      | none =>
        rw [roomMembers, hg] at hmem
        simp at hmem
      | some ms =>
        rw [roomMembers, hg] at hmem
        simpa using hmem
    simp only [leaveCapsule, hg]
    rw [if_pos (by simp)]
    exact mapGet?_mapDelete_self _ _
  · have hp' : p ∈ (disconnectRooms u (runOps db ops initState).capsuleRooms).1 := by
      simpa [disconnect] using hp
    exact ⟨disconnectRooms_not_mem u _ p hp', disconnectRooms_ne_nil u _ hno p hp'⟩

/-- Witness for C5: alice leaving C101 as its sole member deletes the room
from the map; and after alice and bob both join, the disconnect of alice leaves
the room with only bob — nonempty and without alice. -/
theorem c5_no_empty_room_witness :
    mapGet? (leaveCapsule
        (runOps demoDb [Op.connect "alice" "sA" 0, Op.joinOne "alice" "C101"] initState)
        "alice" "C101").1.capsuleRooms (roomName "C101") = none
    ∧ ("alice" ∉ (["bob"] : List String) ∧ (["bob"] : List String) ≠ []) :=
  ⟨(c5_no_empty_room demoDb [Op.connect "alice" "sA" 0, Op.joinOne "alice" "C101"]).2.1
      "alice" "C101" (by decide),
   (c5_no_empty_room demoDb [Op.connect "alice" "sA" 0, Op.connect "bob" "sB" 0,
        Op.joinOne "alice" "C101", Op.joinOne "bob" "C101"]).2.2
      "alice" ("capsule_C101", ["bob"]) (by decide)⟩

/-- C6: over any trace consisting only of register (`connect`) and
unregister (`disc`) operations, `isUserOnline(u)` holds exactly when the
most recent operation mentioning `u` is a register with no later
unregister. -/
theorem c6_presence_register (db : Store) (ops : List Op) (u : String)
    (h : ∀ op ∈ ops, isPresenceOp op = true) :
    isUserOnline (runOps db ops initState) u = true ↔ presenceSpec u ops = some true := by
  rw [runOps_presence db u ops initState h]
  have hini : isUserOnline initState u = false := rfl
  rw [hini]
  cases hps : presenceSpec u ops with
  | none => simp
  | some b => cases b <;> simp

/-- Witness for C6: after connect, disconnect, connect again, the user is
online — the most recent operation mentioning them is a register. -/
theorem c6_presence_register_witness :
    isUserOnline (runOps demoDb
      [Op.connect "u" "s" 0, Op.disc "u", Op.connect "u" "s" 1] initState) "u" = true := by
  rw [c6_presence_register demoDb
    [Op.connect "u" "s" 0, Op.disc "u", Op.connect "u" "s" 1] "u" (by decide)]
  decide

end Memoryscape
